import Mathlib

/-!
Verification of the WEB_SCRAPING_CHATBOT pipeline against its specification.

The development shallowly embeds the data-processing pipeline of the
repository: the web scraper (src/data_processing/scraper.py), the HTML
cleaner (src/data_processing/cleaner.py), the text chunker
(src/data_processing/chunker.py, which delegates to langchain
RecursiveCharacterTextSplitter with length_function len and
is_separator_regex False), the configuration validation (src/config.py),
the vector database client (src/embeddings/vector_db_client.py) and the
RAG answer generator (src/rag/rag_chain.py).

Python strings are modelled as lists of characters; Python truthiness of
optional strings is modelled explicitly.  Fallible operations return an
Except value carrying the raised exception message.  External effects
(browser navigation, the remote index, the language model) are modelled
by explicit outcome parameters, and the code that reacts to those
outcomes is translated statement by statement from the source.
-/

set_option autoImplicit false

/-- A Python string, modelled as its list of characters (len is length). -/
abbrev Str := List Char

/-- Python truthiness of an optional string: None and the empty string are
falsy, every other string is truthy. -/
def truthy : Option Str → Bool
  | none => false
  | some s => !s.isEmpty

/-- The whitespace characters recognised by the Python regex class under
the default (ASCII inputs) and by str.strip. -/
def isPySpace (c : Char) : Bool :=
  c = ' ' || c = '\t' || c = '\n' || c = '\r' || c = '\x0b' || c = '\x0c'

/-- Python str.strip: remove leading and trailing whitespace. -/
def pyStrip (s : Str) : Str :=
  ((s.dropWhile isPySpace).reverse.dropWhile isPySpace).reverse

/-! ## Web scraper (src/data_processing/scraper.py) -/

/-- Outcome of the headless-browser interaction for a single URL, as
observed by Webscraper._fetch_page_content: the page.goto call can raise
a navigation error, return a response object with a status code, or
return None; any other exception in the fetch body is also possible. -/
inductive NavOutcome where
  | navError
  | otherError
  | response (status : Nat) (content : Str)
  | noResponse (content : Str)
deriving DecidableEq

/-- Webscraper._fetch_page_content: returns None on a navigation error,
on any other exception, and on a response whose status differs from 200;
otherwise returns the rendered page content. -/
def fetch_page_content : NavOutcome → Option Str
  | .navError => none
  | .otherError => none
  | .response status content => if status ≠ 200 then none else some content
  | .noResponse content => some content

/-- A fetch counted as successful by scrape_all: the content is not None
and not empty (the Python loop tests the content for truthiness). -/
def fetchSuccess (o : NavOutcome) : Bool :=
  match fetch_page_content o with
  | none => false
  | some c => !c.isEmpty

/-- The loop body of Webscraper.scrape_all: walk the zipped
(url, content) pairs and append the truthy ones. -/
def scrapeLoop (acc : List (Str × Str)) (ps : List (Str × Option Str)) :
    List (Str × Str) :=
  match ps with
  | [] => acc
  | p :: rest =>
    match p.2 with
    | some c => if c.isEmpty then scrapeLoop acc rest else scrapeLoop (acc ++ [(p.1, c)]) rest
    | none => scrapeLoop acc rest

/-- Webscraper.scrape_all, given the per-URL navigation outcomes of the
asyncio.gather call: collects the truthy (url, content) pairs in order
and raises DataProcessingException when none were collected. -/
def scrape_all (urls : List Str) (outcomes : List NavOutcome) :
    Except Str (List (Str × Str)) :=
  let results := outcomes.map fetch_page_content
  let scraped := scrapeLoop [] (urls.zip results)
  if scraped.isEmpty then
    .error (r"No content was successfully scraped from any configured URL.").toList
  else .ok scraped

/-! ## Configuration validation (src/config.py) -/

/-- The environment values consulted by the module-level validation block
at the bottom of src/config.py. -/
structure ConfigEnv where
  debug : Bool
  openai_api_key : Option Str
  huggingface_api_key : Option Str
  vector_db_provider : Str
  pinecone_api_key : Option Str
  pinecone_environment : Option Str
deriving DecidableEq

/-- The string pinecone, the default vector database provider. -/
def pineconeStr : Str := (r"pinecone").toList

/-- The module-level validation in src/config.py, executed at process
start: returns the message of the raised ValueError, or none when the
module loads without error.  The second check is translated literally
from the source: not Config.PINECONE_ENVIRONMENT or Config.PINECONE_API_KEY. -/
def configValidation (c : ConfigEnv) : Option Str :=
  if c.debug then none
  else if !truthy c.openai_api_key && !truthy c.huggingface_api_key then
    some (r"Critical: no llm api key (openai api key or huggingface api key").toList
  else if c.vector_db_provider == pineconeStr &&
      (!truthy c.pinecone_environment || truthy c.pinecone_api_key) then
    some (r"Critical: Pinecone API Key or Enviroment not found for pinecone provihder. cannot proceed in non-debug mode.").toList
  else none

/-! ## Answer generation (src/rag/rag_chain.py) -/

/-- Outcome of awaiting self.rag_chain.ainvoke(query): the chain can
raise a retrieval-layer exception, raise any other exception, or return
the model completion string. -/
inductive ChainOutcome where
  | retrievalError
  | otherError
  | completion (response : Str)
deriving DecidableEq

/-- Result of RAGChain.generate_response: a returned answer string or a
raised GenerationException. -/
inductive GenResult where
  | ok (answer : Str)
  | generationException (msg : Str)
deriving DecidableEq

/-- The fixed fallback message of RAGChain.generate_response.  The
apostrophes are character 39. -/
def fallbackMessage : Str :=
  (r"I").toList ++ [Char.ofNat 39] ++ (r"m sorry, I couldn").toList ++
    [Char.ofNat 39] ++ (r"t find relevant information.").toList

/-- RAGChain.generate_response, as a function of the chain invocation
outcome: an empty or whitespace-only completion is replaced by the fixed
fallback message; exceptions are wrapped into GenerationException. -/
def generate_response : ChainOutcome → GenResult
  | .retrievalError => .generationException (r"Failed to retrieve context").toList
  | .otherError => .generationException (r"Failed to generate response").toList
  | .completion r =>
    if r.isEmpty || (pyStrip r).isEmpty then .ok fallbackMessage else .ok r

/-! ## Vector database client (src/embeddings/vector_db_client.py) -/

/-- Chunk metadata as built by the chunker: a source and a url key. -/
structure ChunkMetadata where
  source : Str
  url : Str
deriving DecidableEq

/-- A langchain Document: page content plus metadata. -/
structure Document where
  page_content : Str
  metadata : ChunkMetadata
deriving DecidableEq

/-- A record persisted in the remote vector index: embedding vector,
text and metadata. -/
structure IndexRecord where
  vector : List Int
  text : Str
  metadata : ChunkMetadata
deriving DecidableEq

/-- The mutable state of a VectorDBClient: the obtained Index handle
(none until initialize succeeds), the cached vectorstore wrapper, and
the abstract contents of the remote index. -/
structure VectorDBState where
  index : Option Str
  vectorstore : Bool
  records : List IndexRecord
deriving DecidableEq

/-- VectorDBClient.__init__: pinecone client and index start as None. -/
def newClientState : VectorDBState :=
  { index := none, vectorstore := false, records := [] }

/-- The retriever view returned by VectorDBClient.get_retriever. -/
structure RetrieverView where
  search_type : Str
  k : Nat
deriving DecidableEq

/-- VectorDBClient.initialize for the pinecone provider: missing
credentials raise VectorDBException; remote index listing or creation
failure (remoteOk false) is wrapped into VectorDBException; on success
the Index handle is stored.  The raised message is returned together
with the unchanged state. -/
def initializeClient (api_key environment : Option Str) (index_name : Str)
    (remoteOk : Bool) (st : VectorDBState) :
    Except Str Unit × VectorDBState :=
  if !truthy api_key || !truthy environment then
    (.error (r"Pinecone API Key or Environment not provided.").toList, st)
  else if remoteOk then
    (.ok (), { st with index := some index_name })
  else
    (.error (r"Failed to initialize Pinecone").toList, st)

/-- VectorDBClient.upsert_documents: raises when the index handle is
None, is a no-op on an empty batch, and otherwise embeds every document
text and writes (vector, text, metadata) records to the index. -/
def upsert_documents (st : VectorDBState) (documents : List Document)
    (embed : Str → List Int) : Except Str Unit × VectorDBState :=
  if st.index.isNone then
    (.error (r"Vector database index not initialized. Call initialize() first.").toList, st)
  else if documents.isEmpty then
    (.ok (), st)
  else
    (.ok (), { st with records := (st.records ++
      documents.map (fun d => ⟨embed d.page_content, d.page_content, d.metadata⟩) : List IndexRecord) })

/-- VectorDBClient.get_retriever: raises when the index handle is None;
otherwise caches the vectorstore wrapper and returns a similarity
retriever with the configured document count. -/
def get_retriever (st : VectorDBState) (numRetrievedDocs : Nat) :
    Except Str RetrieverView × VectorDBState :=
  if st.index.isNone then
    (.error (r"Vector database index not initialized. Call initialize() first.").toList, st)
  else
    (.ok ⟨(r"similarity").toList, numRetrievedDocs⟩, { st with vectorstore := true })

/-! ## Text chunker (src/data_processing/chunker.py)

TextChunker delegates to langchain RecursiveCharacterTextSplitter with
length_function len, is_separator_regex False, and the default
separators, keep_separator and strip_whitespace settings.  The splitter
is embedded here: since is_separator_regex is False every separator is
re.escape-d, so regex search and split degenerate to literal substring
search and split. -/

/-- Does the (nonempty) separator occur as a substring of the text. -/
def containsSub (sep : Str) : Str → Bool
  | [] => sep.isEmpty
  | c :: cs => sep.isPrefixOf (c :: cs) || containsSub sep cs

/-- Locate the first occurrence of sep in the text: the part before the
occurrence and the part after it, or none when sep does not occur. -/
def splitFirst (sep : Str) : Str → Option (Str × Str)
  | [] => if sep.isEmpty then some ([], []) else none
  | c :: cs =>
    if sep.isPrefixOf (c :: cs) then some ([], (c :: cs).drop sep.length)
    else
      match splitFirst sep cs with
      | some pq => some (c :: pq.1, pq.2)
      | none => none

/-- re.split on a literal separator, fuelled by the text length: the
list of parts between consecutive occurrences.  For a nonempty
separator the fuel never runs out. -/
def splitParts (sep : Str) : Nat → Str → List Str
  | 0, text => [text]
  | fuel + 1, text =>
    match splitFirst sep text with
    | none => [text]
    | some pq => pq.1 :: splitParts sep fuel pq.2

/-- langchain _split_text_with_regex with keep_separator: for the empty
separator the text becomes its list of characters; otherwise the
separator is reattached to the front of every part after the first, and
empty strings are filtered out. -/
def splitTextWithSep (sep text : Str) : List Str :=
  if sep.isEmpty then (text.map fun c => [c]).filter (fun s => !s.isEmpty)
  else
    match splitParts sep (text.length + 1) text with
    | [] => []
    | p :: ps => (p :: ps.map fun q => sep ++ q).filter (fun s => !s.isEmpty)

/-- langchain TextSplitter._join_docs with the empty separator (the
merge separator is empty because keep_separator is set): concatenate,
strip, and drop the result when it is empty. -/
def joinDocs (current : List Str) : Option Str :=
  if (pyStrip current.flatten).isEmpty then none
  else some (pyStrip current.flatten)

/-- The popping while-loop inside _merge_splits: drop leading splits
while the running total exceeds the chunk overlap, or while the next
split would still not fit and the window is nonempty. -/
def popOverlap (cs co L : Nat) : List Str → Nat → List Str × Nat
  | [], total => ([], total)
  | d :: rest, total =>
    if co < total || (cs < total + L && 0 < total) then
      popOverlap cs co L rest (total - d.length)
    else (d :: rest, total)

/-- The main loop of langchain TextSplitter._merge_splits with the
empty separator: accumulate splits into a window of at most chunk_size
characters, emitting the joined window and sliding it by the overlap
rule whenever the next split does not fit. -/
def mergeLoop (cs co : Nat) (splits : List Str) (current : List Str)
    (total : Nat) : List Str :=
  match splits with
  | [] =>
    match joinDocs current with
    | some doc => [doc]
    | none => []
  | d :: ds =>
    if cs < total + d.length then
      (if current.isEmpty then []
       else
         match joinDocs current with
         | some doc => [doc]
         | none => []) ++
      (if current.isEmpty then
        mergeLoop cs co ds (current ++ [d]) (total + d.length)
      else
        mergeLoop cs co ds
          ((popOverlap cs co d.length current total).1 ++ [d])
          ((popOverlap cs co d.length current total).2 + d.length))
    else
      mergeLoop cs co ds (current ++ [d]) (total + d.length)

/-- langchain TextSplitter._merge_splits for this configuration. -/
def merge_splits (cs co : Nat) (splits : List Str) : List Str :=
  mergeLoop cs co splits [] 0

/-- The separator-selection loop at the top of
RecursiveCharacterTextSplitter._split_text: take the first separator
that is empty (with no remaining separators) or that occurs in the
text (with the remaining separators); when none matches the last
separator is kept with no remaining separators. -/
def scanSeps (text last : Str) : List Str → Str × List Str
  | [] => (last, [])
  | s :: rest =>
    if s.isEmpty then ([], [])
    else if containsSub s text then (s, rest)
    else scanSeps text last rest

/-- Separator selection, seeded with the final separator of the list. -/
def chooseSep (seps : List Str) (text : Str) : Str × List Str :=
  scanSeps text (seps.getLastD []) seps

/-- The split-processing loop of _split_text, after each split has been
tagged: inl for a split shorter than chunk_size (collected and merged),
inr for the chunks produced from an oversized split (recursion result,
or the split itself when no separators remain). -/
def assembleChunks (cs co : Nat) : List (Str ⊕ List Str) → List Str → List Str
  | [], good => if good.isEmpty then [] else merge_splits cs co good
  | .inl s :: rest, good => assembleChunks cs co rest (good ++ [s])
  | .inr chunks :: rest, good =>
    (if good.isEmpty then [] else merge_splits cs co good) ++ chunks ++
      assembleChunks cs co rest []

/-- RecursiveCharacterTextSplitter._split_text, fuelled by the number of
separator lists the recursion can descend through (each recursive call
uses the strictly shorter remaining-separators list, so any fuel of at
least the separator count is exact). -/
def splitTextRec (fuel : Nat) (cs co : Nat) (seps : List Str) (text : Str) :
    List Str :=
  match fuel with
  | 0 => []
  | Nat.succ f =>
    assembleChunks cs co
      ((splitTextWithSep (chooseSep seps text).1 text).map fun s =>
        if s.length < cs then Sum.inl s
        else Sum.inr (if (chooseSep seps text).2.isEmpty then [s]
          else splitTextRec f cs co (chooseSep seps text).2 s)) []

/-- The default separator list of RecursiveCharacterTextSplitter. -/
def default_separators : List Str := [['\n', '\n'], ['\n'], [' '], []]

/-- RecursiveCharacterTextSplitter.split_text for this configuration. -/
def split_text (cs co : Nat) (text : Str) : List Str :=
  splitTextRec (default_separators.length + 1) cs co default_separators text

/-- TextChunker.chunk_text: empty text yields no documents; otherwise
split_text runs and every chunk becomes a Document carrying a copy of
the supplied metadata (create_documents deep-copies the metadata dict
for every chunk). -/
def chunk_text (cs co : Nat) (text_content : Str) (metadata : ChunkMetadata) :
    List Document :=
  if text_content.isEmpty then []
  else (split_text cs co text_content).map fun c => ⟨c, metadata⟩

/-- One item of the cleaner output consumed by chunk_cleaned_data; a
missing key behaves like an empty string under the truthiness test. -/
structure CleanedItem where
  url : Str
  cleaned_text : Str
deriving DecidableEq

/-- The accumulation loop of TextChunker.chunk_cleaned_data: skip items
with a falsy url or text, otherwise extend with the chunks of the item
tagged with source and url metadata. -/
def chunkLoop (cs co : Nat) (acc : List Document) : List CleanedItem → List Document
  | [] => acc
  | item :: rest =>
    if item.url.isEmpty || item.cleaned_text.isEmpty then chunkLoop cs co acc rest
    else chunkLoop cs co
      (acc ++ chunk_text cs co item.cleaned_text ⟨item.url, item.url⟩) rest

/-- TextChunker.chunk_cleaned_data: an empty batch returns the empty
list; otherwise the items are chunked with per-item skipping, and a
batch whose loop produced no chunks at all raises
DataProcessingException. -/
def chunk_cleaned_data (cs co : Nat) (cleaned_data : List CleanedItem) :
    Except Str (List Document) :=
  if cleaned_data.isEmpty then .ok []
  else if (chunkLoop cs co [] cleaned_data).isEmpty then
    .error (r"No documents were successfully chunked from the cleaned data.").toList
  else .ok (chunkLoop cs co [] cleaned_data)

/-! ## HTML cleaner (src/data_processing/cleaner.py)

HTMLCleaner._clean_html_content operates on the BeautifulSoup parse tree
of its input.  The tree is embedded as a mutual inductive of element,
text and comment nodes; the soup object itself is the list of top-level
nodes.  html.parser builds exactly the markup that is present: it never
invents html or body wrapper elements. -/

mutual
inductive Node where
  | element (tag : Str) (id : Option Str) (children : NodeList)
  | text (s : Str)
  | comment (s : Str)
inductive NodeList where
  | nil
  | cons (n : Node) (ns : NodeList)
end

/-- The fixed denylist of HTMLCleaner.unwanted_tags. -/
def unwantedTags : List Str :=
  [(r"script").toList, (r"style").toList, (r"noscript").toList,
   (r"header").toList, (r"footer").toList, (r"nav").toList,
   (r"form").toList, (r"button").toList, (r"input").toList,
   (r"select").toList, (r"textarea").toList, (r"iframe").toList,
   (r"svg").toList, (r"canvas").toList, (r"img").toList,
   (r"link").toList, (r"meta").toList]

mutual
/-- Comment extraction (comment.extract()) on one node. -/
def removeCommentsN : Node → Node
  | .element t i cs => .element t i (removeCommentsL cs)
  | .text s => .text s
  | .comment s => .comment s
/-- Comment extraction on a node list: comments disappear, elements are
cleaned recursively. -/
def removeCommentsL : NodeList → NodeList
  | .nil => .nil
  | .cons (.comment _) ns => removeCommentsL ns
  | .cons n ns => .cons (removeCommentsN n) (removeCommentsL ns)
end

mutual
/-- Denylist removal (element.decompose()) below one node. -/
def decomposeN : Node → Node
  | .element t i cs => .element t i (decomposeL cs)
  | .text s => .text s
  | .comment s => .comment s
/-- Denylist removal on a node list: an element whose tag is on the
denylist is removed together with its subtree. -/
def decomposeL : NodeList → NodeList
  | .nil => .nil
  | .cons (.element t i cs) ns =>
    if unwantedTags.contains t then decomposeL ns
    else .cons (.element t i (decomposeL cs)) (decomposeL ns)
  | .cons n ns => .cons n (decomposeL ns)
end

mutual
/-- soup.find(tag) restricted to one node: the node itself, else its
descendants in document order. -/
def findTagN (t : Str) : Node → Option Node
  | .element tg i cs => if tg == t then some (.element tg i cs) else findTagL t cs
  | .text _ => none
  | .comment _ => none
/-- soup.find(tag) over a node list, depth first in document order. -/
def findTagL (t : Str) : NodeList → Option Node
  | .nil => none
  | .cons n ns =>
    match findTagN t n with
    | some r => some r
    | none => findTagL t ns
end

mutual
/-- soup.find(id=value) restricted to one node. -/
def findIdN (v : Str) : Node → Option Node
  | .element tg i cs =>
    if i == some v then some (.element tg i cs) else findIdL v cs
  | .text _ => none
  | .comment _ => none
/-- soup.find(id=value) over a node list, depth first in document order. -/
def findIdL (v : Str) : NodeList → Option Node
  | .nil => none
  | .cons n ns =>
    match findIdN v n with
    | some r => some r
    | none => findIdL v ns
end

mutual
/-- The descendant strings of one node, in document order. -/
def stringsN : Node → List Str
  | .element _ _ cs => stringsL cs
  | .text s => [s]
  | .comment _ => []
/-- The descendant strings of a node list, in document order. -/
def stringsL : NodeList → List Str
  | .nil => []
  | .cons n ns => stringsN n ++ stringsL ns
end

/-- get_text(separator=space, strip=True): strip every descendant
string, drop the ones that become empty, and join with single spaces. -/
def getTextSpaceStrip (n : Node) : Str :=
  List.intercalate [' '] (((stringsN n).map pyStrip).filter (fun s => !s.isEmpty))

/-- The substitution of the compiled whitespace pattern: every maximal
run of whitespace becomes a single space. -/
def collapseWsAux : Bool → Str → Str
  | _, [] => []
  | prevSpace, c :: cs =>
    if isPySpace c then
      if prevSpace then collapseWsAux true cs
      else ' ' :: collapseWsAux true cs
    else c :: collapseWsAux false cs

/-- whitespace_pattern.sub(space, text). -/
def collapseWs (s : Str) : Str := collapseWsAux false s

/-- The strings main, article, content and body used by the content
region selection. -/
def mainTag : Str := (r"main").toList

/-- The article tag name. -/
def articleTag : Str := (r"article").toList

/-- The id value content. -/
def contentId : Str := (r"content").toList

/-- The body tag name. -/
def bodyTag : Str := (r"body").toList

/-- HTMLCleaner._clean_html_content on a parsed soup: extract comments,
decompose denylisted tags, select the content region (main, then
article, then id content, then body), and return its visible text with
whitespace collapsed and stripped; the empty string when no region is
found. -/
def clean_html_soup (soup : NodeList) : Str :=
  let s1 := removeCommentsL soup
  let s2 := decomposeL s1
  let mc :=
    match findTagL mainTag s2 with
    | some n => some n
    | none =>
      match findTagL articleTag s2 with
      | some n => some n
      | none =>
        match findIdL contentId s2 with
        | some n => some n
        | none => findTagL bodyTag s2
  match mc with
  | none => []
  | some n => pyStrip (collapseWs (getTextSpaceStrip n))

/-- HTMLCleaner._clean_html_content applied to markup-free text: text
that contains no tag-opening < and no entity-starting & character.
html.parser tokenizes such input entirely as character data, so the
soup is a single top-level NavigableString and in particular holds no
element; no html or body wrapper is added.  Cleaned output that does
contain such characters (get_text returns entity-decoded text, so the
cleaner can emit real markup) re-parses into elements instead and is
outside this model. -/
def clean_plain_text (s : Str) : Str :=
  if s.isEmpty then [] else clean_html_soup (.cons (.text s) .nil)

/-! ## Helper definitions used in the statements below -/

/-- The pairs kept by the scrape_all loop, as a filterMap: a pair
survives exactly when its fetched content is truthy. -/
def collectScraped (ps : List (Str × Option Str)) : List (Str × Str) :=
  ps.filterMap fun p =>
    match p.2 with
    | some c => if c.isEmpty then none else some (p.1, c)
    | none => none

/-- The contribution of one cleaned item to the chunk_cleaned_data
accumulator: nothing for a skipped item, its chunks otherwise. -/
def itemChunks (cs co : Nat) (item : CleanedItem) : List Document :=
  if item.url.isEmpty || item.cleaned_text.isEmpty then []
  else chunk_text cs co item.cleaned_text ⟨item.url, item.url⟩

/-- Two consecutive chunks share exactly k characters of trailing and
leading context: the last k characters of the first chunk are the first
k characters of the second. -/
def sharesExactOverlap (k : Nat) (a b : Str) : Prop :=
  a.drop (a.length - k) = b.take k

/-- Concrete text used to exercise the chunker at chunk_size 10 and
chunk_overlap 5. -/
def cexText : Str := (r"aaaa bbbb cccc dddd eeee").toList

/-- Concrete metadata for the chunker counterexample. -/
def cexMeta : ChunkMetadata := ⟨(r"http://e.com").toList, (r"http://e.com").toList⟩

/-- Concrete URL list for the scraper witnesses. -/
def urlsW : List Str := [(r"a").toList, (r"b").toList]

/-- Concrete navigation outcomes for the scraper witnesses: the first
URL fails, the second returns a 200 response. -/
def outcomesW : List NavOutcome := [.navError, .response 200 (r"x").toList]

/-- The scraped result of the witness batch. -/
def resW : List (Str × Str) := [((r"b").toList, (r"x").toList)]

/-- Concrete cleaned batch for the chunker metadata witness. -/
def dataW : List CleanedItem := [⟨(r"u").toList, (r"hello").toList⟩]

/-- The documents chunk_cleaned_data produces from dataW. -/
def docsW : List Document :=
  [⟨(r"hello").toList, ⟨(r"u").toList, (r"u").toList⟩⟩]

/-! ## Theorems -/

/-- C4: the claim states that non-debug startup validation fails exactly
when a required Pinecone credential is missing, and succeeds when both
are present.  The code has the polarity of the API-key test inverted
(it tests PINECONE_API_KEY instead of not PINECONE_API_KEY): with both
credentials present and an LLM key configured, the module raises at
import, and with the API key missing but the environment present it
does not raise.  Both evaluations contradict the claim. -/
theorem config_validation_miswired :
    configValidation
      ⟨false, some (r"sk").toList, none, pineconeStr,
        some (r"pc-key").toList, some (r"us-east").toList⟩ ≠ none ∧
    configValidation
      ⟨false, some (r"sk").toList, none, pineconeStr,
        none, some (r"us-east").toList⟩ = none := by
  constructor
  · decide
  · decide

/-- C5 counterexample: a response with status 204 is inside the 2xx
range, yet _fetch_page_content drops it, because the code compares the
status against 200 exactly rather than against the 2xx range. -/
theorem fetch_page_2xx_dropped :
    (200 ≤ 204 ∧ 204 < 300) ∧
    fetch_page_content (.response 204 (r"<html></html>").toList) = none := by
  exact ⟨by decide, rfl⟩

/-- C5 (amended): a single URL fetch is dropped exactly when navigation
raises, any other exception occurs, or the response status differs from
200; a fetch whose response has status exactly 200, or that yields no
response object, returns its rendered HTML. -/
theorem fetch_page_drop_policy :
    (∀ o : NavOutcome, fetch_page_content o = none ↔
      o = .navError ∨ o = .otherError ∨
        ∃ s c, o = .response s c ∧ s ≠ 200) ∧
    (∀ c : Str, fetch_page_content (.response 200 c) = some c) ∧
    (∀ c : Str, fetch_page_content (.noResponse c) = some c) := by
  refine ⟨?_, fun c => rfl, fun c => rfl⟩
  intro o
  cases o with
  | navError => simp [fetch_page_content]
  | otherError => simp [fetch_page_content]
  | noResponse c => simp [fetch_page_content]
  | response s c =>
    by_cases h : s = 200
    · subst h
      simp [fetch_page_content]
    · simp only [fetch_page_content, if_pos h, ne_eq]
      constructor
      · intro _
        exact Or.inr (Or.inr ⟨s, c, rfl, h⟩)
      · intro _
        trivial

/-- C6 counterexample: cleaning a page whose body holds the text
hello world produces the non-empty cleaned text hello world, but
feeding that cleaned text back through the cleaning operation yields
the empty string, not the text itself: the re-parsed plain text
contains no main, article, content or body element. -/
theorem clean_idempotence_cex :
    clean_html_soup
      (.cons (.element bodyTag none
        (.cons (.text (r"hello world").toList) .nil)) .nil) =
      (r"hello world").toList ∧
    clean_plain_text ((r"hello world").toList) = [] ∧
    (r"hello world").toList ≠ ([] : Str) := by
  exact ⟨rfl, rfl, by decide⟩

/-- C6 (amended): cleaning is not idempotent on already-clean text.
For cleaned text that contains no markup-significant character (no
tag-opening < and no entity-starting &), re-cleaning yields the empty
string rather than the text itself, because html.parser re-tokenizes
such text as bare character data holding no main, article, content or
body element.  Cleaned output that does contain such characters
(get_text entity-decodes, so the cleaner can emit real markup)
re-parses into elements and re-cleans to the clean of that re-parse
instead; it is outside this statement. -/
theorem clean_plain_text_markup_free (s : Str)
    (h : ∀ c ∈ s, ¬(c = '<' ∨ c = '&')) : clean_plain_text s = [] := by
  cases s with
  | nil => rfl
  | cons c cs => rfl

/-- C6 witness: the cleaned text hello world is markup-free and indeed
re-cleans to the empty string. -/
theorem clean_plain_text_markup_free_w :
    (∀ c ∈ (r"hello world").toList, ¬(c = '<' ∨ c = '&')) ∧
    clean_plain_text ((r"hello world").toList) = [] :=
  ⟨by decide, clean_plain_text_markup_free ((r"hello world").toList) (by decide)⟩

/-- C7: whenever the language-model completion is empty or whitespace
only, generate_response returns exactly the fixed fallback message,
which is itself non-empty, and no completion ever produces an empty
answer string. -/
theorem generate_response_fallback (r : Str) (h : pyStrip r = []) :
    generate_response (.completion r) = .ok fallbackMessage ∧
    fallbackMessage ≠ [] ∧
    (∀ s : Str, generate_response (.completion s) ≠ .ok []) := by
  refine ⟨?_, by decide, ?_⟩
  · have hb : (pyStrip r).isEmpty = true := by simp [h]
    simp [generate_response, hb]
  · intro s hs
    by_cases hc : (s.isEmpty || (pyStrip s).isEmpty) = true
    · rw [generate_response, if_pos hc] at hs
      have : fallbackMessage = [] := by injection hs
      exact absurd this (by decide)
    · rw [generate_response, if_neg hc] at hs
      have hse : s = [] := by injection hs
      subst hse
      simp at hc

/-- C7 witness: the two-space completion is whitespace only and indeed
produces the fallback message. -/
theorem generate_response_fallback_w :
    pyStrip [' ', ' '] = [] ∧
    generate_response (.completion [' ', ' ']) = .ok fallbackMessage :=
  ⟨by decide, (generate_response_fallback [' ', ' '] (by decide)).1⟩

/-- C9: on a freshly constructed client (no successful initialize),
upsert_documents and get_retriever raise VectorDBException and leave
the state, in particular the index contents, unchanged; and after any
successful initialize, upserting an empty batch returns without error
and leaves the state unchanged, writing nothing. -/
theorem vector_store_not_ready (documents : List Document)
    (embed : Str → List Int) (k : Nat) :
    (∃ e, (upsert_documents newClientState documents embed).1 = .error e) ∧
    (upsert_documents newClientState documents embed).2 = newClientState ∧
    (∃ e, (get_retriever newClientState k).1 = .error e) ∧
    (get_retriever newClientState k).2 = newClientState ∧
    (∀ key env name remoteOk st st2,
      initializeClient key env name remoteOk st = (.ok (), st2) →
      upsert_documents st2 [] embed = (.ok (), st2)) := by
  refine ⟨⟨_, rfl⟩, rfl, ⟨_, rfl⟩, rfl, ?_⟩
  intro key env name remoteOk st st2 h
  rw [initializeClient] at h
  split at h
  · exact absurd (congrArg Prod.fst h) (by simp)
  · split at h
    · have hst : st2 = { st with index := some name } :=
        (congrArg Prod.snd h).symm
      subst hst
      rfl
    · exact absurd (congrArg Prod.fst h) (by simp)

/-- C9 witness: a concrete uninitialized upsert raises, and an empty
upsert after a concrete successful initialize is a no-op. -/
theorem vector_store_not_ready_w :
    (∃ e, (upsert_documents newClientState
      [⟨(r"t").toList, ⟨(r"u").toList, (r"u").toList⟩⟩] (fun _ => [])).1 = .error e) ∧
    upsert_documents ⟨some (r"idx").toList, false, []⟩ [] (fun _ => []) =
      (.ok (), ⟨some (r"idx").toList, false, []⟩) := by
  refine ⟨(vector_store_not_ready _ _ 4).1, ?_⟩
  exact (vector_store_not_ready [] (fun _ => []) 4).2.2.2.2
    (some (r"k").toList) (some (r"e").toList) (r"idx").toList true
    newClientState ⟨some (r"idx").toList, false, []⟩ rfl

/-- The scrape_all loop is the filterMap that keeps truthy contents. -/
theorem scrapeLoop_eq (ps : List (Str × Option Str)) :
    ∀ acc, scrapeLoop acc ps = acc ++ collectScraped ps := by
  induction ps with
  | nil => intro acc; simp [scrapeLoop, collectScraped]
  | cons p rest ih =>
    intro acc
    rcases p with ⟨u, r⟩
    cases r with
    | none => simp [scrapeLoop, collectScraped, List.filterMap_cons, ih]
    | some c =>
      rcases eq_or_ne c [] with hc | hc
      · subst hc
        simp [scrapeLoop, collectScraped, List.filterMap_cons, ih]
      · have hce : c.isEmpty = false := by simpa using hc
        simp [scrapeLoop, collectScraped, List.filterMap_cons, hce, hc, ih]

/-- When every outcome fails the truthiness test, no pair survives. -/
theorem collectScraped_nil_of_fail :
    ∀ (urls : List Str) (outcomes : List NavOutcome),
    (∀ o ∈ outcomes, fetchSuccess o = false) →
    collectScraped (urls.zip (outcomes.map fetch_page_content)) = [] := by
  intro urls
  induction urls with
  | nil => intro outcomes _; simp [collectScraped]
  | cons u us ih =>
    intro outcomes h
    cases outcomes with
    | nil => simp [collectScraped]
    | cons o os =>
      have ho := h o (List.mem_cons_self o os)
      have hos : ∀ x ∈ os, fetchSuccess x = false :=
        fun x hx => h x (List.mem_cons_of_mem o hx)
      have hrec := ih os hos
      rw [fetchSuccess] at ho
      cases hf : fetch_page_content o with
      | none =>
        simpa [collectScraped, List.filterMap_cons, hf] using hrec
      | some c =>
        rw [hf] at ho
        have hce : c = [] := by simpa using ho
        subst hce
        simpa [collectScraped, List.filterMap_cons, hf] using hrec

/-- When some outcome passes the truthiness test and the outcome list
matches the url list in length, at least one pair survives. -/
theorem collectScraped_ne_nil_of_success :
    ∀ (outcomes : List NavOutcome) (urls : List Str),
    outcomes.length = urls.length →
    (∃ o ∈ outcomes, fetchSuccess o = true) →
    collectScraped (urls.zip (outcomes.map fetch_page_content)) ≠ [] := by
  intro outcomes
  induction outcomes with
  | nil => intro urls _ h; simp at h
  | cons o os ih =>
    intro urls hlen hex
    cases urls with
    | nil => simp at hlen
    | cons u us =>
      have hlen2 : os.length = us.length := by simpa using hlen
      by_cases ho : fetchSuccess o = true
      · rw [fetchSuccess] at ho
        cases hf : fetch_page_content o with
        | none => rw [hf] at ho; exact absurd ho (by decide)
        | some c =>
          rw [hf] at ho
          have hne : c ≠ [] := by simpa using ho
          simp [collectScraped, List.filterMap_cons, hf, hne]
      · have hos : ∃ x ∈ os, fetchSuccess x = true := by
          rcases hex with ⟨x, hx, hxs⟩
          rcases List.mem_cons.mp hx with hxo | hxos
          · exact absurd (hxo ▸ hxs) ho
          · exact ⟨x, hxos, hxs⟩
        have hrec := ih us hlen2 hos
        intro hnil
        apply hrec
        cases hf : fetch_page_content o with
        | none =>
          simpa [collectScraped, List.filterMap_cons, hf] using hnil
        | some c =>
          have ho' : fetchSuccess o = false := by
            cases hx : fetchSuccess o
            · rfl
            · exact absurd hx ho
          simp only [fetchSuccess, hf] at ho'
          have hce : c = [] := by simpa using ho'
          subst hce
          simpa [collectScraped, List.filterMap_cons, hf] using hnil

/-- C3: a batch in which every fetch fails raises the ScrapingFailed
condition, and a batch with at least one success and at least one
failure returns exactly the truthy (url, content) pairs without
raising. -/
theorem scrape_all_batch_outcome (urls : List Str)
    (outcomes : List NavOutcome) (hlen : outcomes.length = urls.length) :
    ((∀ o ∈ outcomes, fetchSuccess o = false) →
      ∃ e, scrape_all urls outcomes = .error e) ∧
    ((∃ o ∈ outcomes, fetchSuccess o = true) →
      (∃ o ∈ outcomes, fetchSuccess o = false) →
      scrape_all urls outcomes =
        .ok (collectScraped (urls.zip (outcomes.map fetch_page_content)))) := by
  constructor
  · intro hall
    rw [scrape_all, scrapeLoop_eq, List.nil_append,
      collectScraped_nil_of_fail urls outcomes hall]
    exact ⟨_, rfl⟩
  · intro hsucc _
    have hne := collectScraped_ne_nil_of_success outcomes urls hlen hsucc
    rw [scrape_all, scrapeLoop_eq, List.nil_append]
    rw [if_neg (by simpa [List.isEmpty_iff] using hne)]

/-- C3 witness: one of two URLs succeeds; the batch returns exactly the
successful pair. -/
theorem scrape_all_batch_outcome_w :
    outcomesW.length = urlsW.length ∧
    scrape_all urlsW outcomesW = .ok resW := by
  refine ⟨rfl, ?_⟩
  have h := (scrape_all_batch_outcome urlsW outcomesW rfl).2
    (by decide) (by decide)
  exact h.trans (congrArg Except.ok (by decide))

/-- The kept pairs keep their relative order: the first components of
the collected list form a sublist of the first components of the
input. -/
theorem collectScraped_fst_sublist (ps : List (Str × Option Str)) :
    ((collectScraped ps).map Prod.fst).Sublist (ps.map Prod.fst) := by
  induction ps with
  | nil => simp [collectScraped]
  | cons p rest ih =>
    rcases p with ⟨u, r⟩
    cases r with
    | none =>
      simpa [collectScraped, List.filterMap_cons] using ih.cons u
    | some c =>
      rcases eq_or_ne c [] with hc | hc
      · subst hc
        simpa [collectScraped, List.filterMap_cons] using ih.cons u
      · simpa [collectScraped, List.filterMap_cons, hc] using ih.cons₂ u

/-- Every kept pair corresponds to an input pair with that url and that
fetched content. -/
theorem collectScraped_mem (ps : List (Str × Option Str)) (q : Str × Str)
    (h : q ∈ collectScraped ps) : (q.1, some q.2) ∈ ps := by
  induction ps with
  | nil => simp [collectScraped] at h
  | cons p rest ih =>
    rcases p with ⟨u, r⟩
    cases r with
    | none =>
      rw [collectScraped, List.filterMap_cons] at h
      exact List.mem_cons_of_mem _ (ih h)
    | some c =>
      rcases eq_or_ne c [] with hc | hc
      · subst hc
        rw [collectScraped, List.filterMap_cons] at h
        simp only [List.isEmpty_nil, if_pos] at h
        exact List.mem_cons_of_mem _ (ih h)
      · have hce : c.isEmpty = false := by simpa using hc
        rw [collectScraped, List.filterMap_cons] at h
        simp only [hce, Bool.false_eq_true, if_neg] at h
        rcases List.mem_cons.mp h with hq | hq
        · subst hq; exact List.mem_cons_self _ _
        · exact List.mem_cons_of_mem _ (ih hq)

/-- C10: a successful scrape_all returns its pairs in the relative
order of the configured URL list, and pairs every returned URL with the
content fetched for that URL. -/
theorem scrape_all_order (urls : List Str) (outcomes : List NavOutcome)
    (l : List (Str × Str)) (hlen : outcomes.length = urls.length)
    (h : scrape_all urls outcomes = .ok l) :
    (l.map Prod.fst).Sublist urls ∧
    (∀ q ∈ l, (q.1, some q.2) ∈ urls.zip (outcomes.map fetch_page_content)) := by
  have hl : l = collectScraped (urls.zip (outcomes.map fetch_page_content)) := by
    rw [scrape_all, scrapeLoop_eq, List.nil_append] at h
    split at h
    · exact absurd h (by simp)
    · injection h with h2
      exact h2.symm
  subst hl
  constructor
  · have hs := collectScraped_fst_sublist (urls.zip (outcomes.map fetch_page_content))
    have hmap : (urls.zip (outcomes.map fetch_page_content)).map Prod.fst = urls :=
      List.map_fst_zip urls _ (by simp [hlen])
    rwa [hmap] at hs
  · intro q hq
    exact collectScraped_mem _ q hq

/-- C10 witness: the concrete partial batch keeps only the second URL,
in order and paired with its own content. -/
theorem scrape_all_order_w :
    scrape_all urlsW outcomesW = .ok resW ∧
    ((resW.map Prod.fst).Sublist urlsW ∧
      ∀ q ∈ resW, (q.1, some q.2) ∈ urlsW.zip (outcomesW.map fetch_page_content)) :=
  ⟨rfl, scrape_all_order urlsW outcomesW resW rfl rfl⟩

/-- The chunk_cleaned_data loop is the concatenation of the per-item
contributions. -/
theorem chunkLoop_eq (cs co : Nat) :
    ∀ (items : List CleanedItem) (acc : List Document),
    chunkLoop cs co acc items = acc ++ (items.map (itemChunks cs co)).flatten := by
  intro items
  induction items with
  | nil => intro acc; simp [chunkLoop]
  | cons item rest ih =>
    intro acc
    by_cases hskip : (item.url.isEmpty || item.cleaned_text.isEmpty) = true
    · simp [chunkLoop, hskip, itemChunks, ih]
    · simp [chunkLoop, hskip, itemChunks, ih]

/-- Every document of chunk_text carries exactly the supplied metadata. -/
theorem chunk_text_metadata (cs co : Nat) (t : Str) (m : ChunkMetadata) :
    ∀ d ∈ chunk_text cs co t m, d.metadata = m := by
  intro d hd
  rw [chunk_text] at hd
  split at hd
  · simp at hd
  · rcases List.mem_map.mp hd with ⟨c, _, hc⟩
    rw [← hc]

/-- C2: every document an ok run of chunk_cleaned_data produces carries
the metadata source and url equal to the url of the cleaned item it was
chunked from, and every record a subsequent upsert writes to the index
carries the text and metadata of one of those documents. -/
theorem chunk_metadata_traced (cs co : Nat) (data : List CleanedItem)
    (docs : List Document) (h : chunk_cleaned_data cs co data = .ok docs) :
    (∀ doc ∈ docs, ∃ item ∈ data, item.url ≠ [] ∧
      doc.metadata = ⟨item.url, item.url⟩) ∧
    (∀ (st : VectorDBState) (embed : Str → List Int) (rcd : IndexRecord),
      rcd ∈ (upsert_documents st docs embed).2.records →
      rcd ∈ st.records ∨ ∃ doc ∈ docs,
        rcd.text = doc.page_content ∧ rcd.metadata = doc.metadata) := by
  constructor
  · intro doc hdoc
    rw [chunk_cleaned_data] at h
    split at h
    · injection h with h2
      rw [← h2] at hdoc
      simp at hdoc
    · rw [chunkLoop_eq, List.nil_append] at h
      split at h
      · exact absurd h (by simp)
      · injection h with h2
        rw [← h2] at hdoc
        rcases List.mem_flatten.mp hdoc with ⟨l, hl, hdl⟩
        rcases List.mem_map.mp hl with ⟨item, hitem, hil⟩
        rw [← hil, itemChunks] at hdl
        split at hdl
        · simp at hdl
        · rename_i hskip
          have hurl : item.url ≠ [] := by
            intro hu
            exact hskip (by simp [hu])
          exact ⟨item, hitem, hurl, chunk_text_metadata cs co _ _ doc hdl⟩
  · intro st embed rcd hrcd
    rw [upsert_documents] at hrcd
    split at hrcd
    · exact Or.inl hrcd
    · split at hrcd
      · exact Or.inl hrcd
      · simp only at hrcd
        rcases List.mem_append.mp hrcd with hold | hnew
        · exact Or.inl hold
        · rcases List.mem_map.mp hnew with ⟨doc, hdoc, hde⟩
          exact Or.inr ⟨doc, hdoc, by rw [← hde], by rw [← hde]⟩

/-- C2 witness: a one-item batch chunks into one document carrying the
source and url metadata of the item. -/
theorem chunk_metadata_traced_w :
    chunk_cleaned_data 500 50 dataW = .ok docsW ∧
    (∀ doc ∈ docsW, ∃ item ∈ dataW, item.url ≠ [] ∧
      doc.metadata = ⟨item.url, item.url⟩) :=
  ⟨rfl, (chunk_metadata_traced 500 50 dataW docsW rfl).1⟩

/-- C8 counterexample: the empty batch yields zero total chunks, yet
chunk_cleaned_data returns the empty list without signalling the
ChunkingFailed condition, because the zero-chunk check is preceded by
the early return on an empty input batch. -/
theorem chunk_empty_batch_cex :
    chunk_cleaned_data 500 50 [] = .ok ([] : List Document) := rfl

/-- One item contributes no chunks exactly when it is skipped for a
falsy url or text, or its text chunks to nothing. -/
theorem itemChunks_eq_nil (cs co : Nat) (item : CleanedItem) :
    itemChunks cs co item = [] ↔
      item.url = [] ∨ item.cleaned_text = [] ∨
        chunk_text cs co item.cleaned_text ⟨item.url, item.url⟩ = [] := by
  rw [itemChunks]
  by_cases hskip : (item.url.isEmpty || item.cleaned_text.isEmpty) = true
  · rw [if_pos hskip]
    simp only [Bool.or_eq_true, List.isEmpty_iff] at hskip
    constructor
    · intro _
      rcases hskip with h | h
      · exact Or.inl h
      · exact Or.inr (Or.inl h)
    · intro _
      rfl
  · rw [if_neg hskip]
    simp only [Bool.or_eq_true, List.isEmpty_iff] at hskip
    push_neg at hskip
    simp [hskip.1, hskip.2]

/-- C8 (amended): chunking a single document with empty text yields the
empty chunk list, and for a non-empty batch the chunker raises the
ChunkingFailed condition exactly when every item of the batch is
skipped or contributes no chunks; an empty batch returns the empty
list without raising (see the counterexample). -/
theorem chunk_zero_yield (cs co : Nat) (m : ChunkMetadata)
    (data : List CleanedItem) (hne : data ≠ []) :
    chunk_text cs co [] m = [] ∧
    ((∃ e, chunk_cleaned_data cs co data = .error e) ↔
      ∀ item ∈ data, item.url = [] ∨ item.cleaned_text = [] ∨
        chunk_text cs co item.cleaned_text ⟨item.url, item.url⟩ = []) := by
  constructor
  · rfl
  · rw [chunk_cleaned_data, if_neg (by simpa [List.isEmpty_iff] using hne)]
    simp only [chunkLoop_eq, List.nil_append]
    by_cases hc : ((data.map (itemChunks cs co)).flatten).isEmpty = true
    · rw [if_pos hc]
      have hall : ∀ item ∈ data, itemChunks cs co item = [] := by
        intro item hitem
        have hfl : (data.map (itemChunks cs co)).flatten = [] := by
          simpa [List.isEmpty_iff] using hc
        exact List.flatten_eq_nil_iff.mp hfl _
          (List.mem_map_of_mem _ hitem)
      constructor
      · intro _ item hitem
        exact (itemChunks_eq_nil cs co item).mp (hall item hitem)
      · intro _
        exact ⟨_, rfl⟩
    · rw [if_neg hc]
      constructor
      · intro hex
        rcases hex with ⟨e, he⟩
        exact absurd he (by simp)
      · intro hall
        exfalso
        apply hc
        simp only [List.isEmpty_iff]
        apply List.flatten_eq_nil_iff.mpr
        intro l hl
        rcases List.mem_map.mp hl with ⟨item, hitem, hil⟩
        rw [← hil]
        exact (itemChunks_eq_nil cs co item).mpr (hall item hitem)

/-- C8 witness: a non-empty batch whose single item has empty text is
skipped, so the batch yields zero chunks and raises. -/
theorem chunk_zero_yield_w :
    ([⟨(r"u").toList, []⟩] : List CleanedItem) ≠ [] ∧
    (chunk_text 500 50 [] ⟨[], []⟩ = [] ∧
      ((∃ e, chunk_cleaned_data 500 50 [⟨(r"u").toList, []⟩] = .error e) ↔
        ∀ item ∈ ([⟨(r"u").toList, []⟩] : List CleanedItem),
          item.url = [] ∨ item.cleaned_text = [] ∨
            chunk_text 500 50 item.cleaned_text ⟨item.url, item.url⟩ = [])) :=
  ⟨by decide, chunk_zero_yield 500 50 ⟨[], []⟩ [⟨(r"u").toList, []⟩] (by decide)⟩

/-- Stripping never lengthens a string. -/
theorem pyStrip_length_le (s : Str) : (pyStrip s).length ≤ s.length := by
  rw [pyStrip, List.length_reverse]
  refine le_trans ((List.dropWhile_suffix isPySpace).sublist.length_le) ?_
  rw [List.length_reverse]
  exact (List.dropWhile_suffix isPySpace).sublist.length_le

/-- A joined window document is no longer than the window character
total. -/
theorem joinDocs_length_le (current : List Str) (doc : Str)
    (h : joinDocs current = some doc) :
    doc.length ≤ ((current.map List.length)).sum := by
  rw [joinDocs] at h
  split at h
  · exact absurd h (by simp)
  · injection h with h2
    rw [← h2]
    calc (pyStrip current.flatten).length
        ≤ current.flatten.length := pyStrip_length_le _
      _ = (current.map List.length).sum := List.length_flatten _

/-- The popping loop keeps the running total equal to the window
character count, and stops with a window into which the next split
fits, or an empty window. -/
theorem popOverlap_spec (cs co L : Nat) :
    ∀ (cur : List Str) (total : Nat),
    total = (cur.map List.length).sum →
    (popOverlap cs co L cur total).2 =
        ((popOverlap cs co L cur total).1.map List.length).sum ∧
    ((popOverlap cs co L cur total).2 + L ≤ cs ∨
      (popOverlap cs co L cur total).2 = 0) := by
  intro cur
  induction cur with
  | nil =>
    intro total h
    rw [popOverlap]
    refine ⟨h, Or.inr ?_⟩
    simpa using h
  | cons d rest ih =>
    intro total h
    rw [popOverlap]
    simp only [List.map_cons, List.sum_cons] at h
    by_cases hcond : (co < total || (cs < total + L && 0 < total)) = true
    · rw [if_pos hcond]
      exact ih (total - d.length) (by omega)
    · rw [if_neg hcond]
      simp only [Bool.or_eq_true, Bool.and_eq_true, decide_eq_true_eq,
        not_or, not_and] at hcond
      refine ⟨by simpa using h, ?_⟩
      omega

/-- Every document the merge loop emits is at most chunk_size long,
provided every remaining split is shorter than chunk_size and the
current window already fits. -/
theorem mergeLoop_chunk_bound (cs co : Nat) :
    ∀ (splits current : List Str) (total : Nat),
    (∀ s ∈ splits, s.length < cs) →
    total = ((current.map List.length)).sum →
    total ≤ cs →
    ∀ doc ∈ mergeLoop cs co splits current total, doc.length ≤ cs := by
  intro splits
  induction splits with
  | nil =>
    intro current total _ hsum hle doc hdoc
    rw [mergeLoop] at hdoc
    cases hj : joinDocs current with
    | none => rw [hj] at hdoc; simp at hdoc
    | some d =>
      rw [hj] at hdoc
      simp only [List.mem_singleton] at hdoc
      subst hdoc
      calc doc.length ≤ (current.map List.length).sum :=
            joinDocs_length_le current doc hj
        _ = total := hsum.symm
        _ ≤ cs := hle
  | cons d ds ih =>
    intro current total hs hsum hle doc hdoc
    have hdlt : d.length < cs := hs d (List.mem_cons_self d ds)
    have hs' : ∀ s ∈ ds, s.length < cs :=
      fun s hx => hs s (List.mem_cons_of_mem d hx)
    have hsum2 : ((current ++ [d]).map List.length).sum = total + d.length := by
      rw [List.map_append, List.sum_append, ← hsum]
      simp
    rw [mergeLoop] at hdoc
    by_cases hfit : cs < total + d.length
    · rw [if_pos hfit] at hdoc
      rcases List.mem_append.mp hdoc with hemit | hrest
      · by_cases hce : current.isEmpty = true
        · rw [if_pos hce] at hemit
          simp at hemit
        · rw [if_neg hce] at hemit
          cases hj : joinDocs current with
          | none => rw [hj] at hemit; simp at hemit
          | some d2 =>
            rw [hj] at hemit
            simp only [List.mem_singleton] at hemit
            subst hemit
            calc doc.length ≤ (current.map List.length).sum :=
                  joinDocs_length_le current doc hj
              _ = total := hsum.symm
              _ ≤ cs := hle
      · by_cases hce : current.isEmpty = true
        · rw [if_pos hce] at hrest
          have hcur : current = [] := by simpa using hce
          subst hcur
          refine ih ([] ++ [d]) (total + d.length) hs' hsum2.symm ?_ doc hrest
          simp only [List.map_nil, List.sum_nil] at hsum
          omega
        · rw [if_neg hce] at hrest
          rcases popOverlap_spec cs co d.length current total hsum with ⟨hp1, hp2⟩
          have hpsum :
              (List.map List.length
                ((popOverlap cs co d.length current total).1 ++ [d])).sum =
              (popOverlap cs co d.length current total).2 + d.length := by
            rw [List.map_append, List.sum_append, ← hp1]
            simp
          refine ih _ _ hs' hpsum.symm ?_ doc hrest
          omega
    · rw [if_neg hfit] at hdoc
      refine ih (current ++ [d]) (total + d.length) hs' hsum2.symm ?_ doc hdoc
      omega

/-- merge_splits keeps every emitted chunk within chunk_size when every
input split is shorter than chunk_size. -/
theorem merge_splits_chunk_bound (cs co : Nat) (splits : List Str)
    (hs : ∀ s ∈ splits, s.length < cs) :
    ∀ doc ∈ merge_splits cs co splits, doc.length ≤ cs :=
  mergeLoop_chunk_bound cs co splits [] 0 hs (by simp) (Nat.zero_le cs)

/-- When the separator list contains the empty separator, the selection
loop either picks the empty separator (leaving no remaining separators)
or picks an earlier matching separator whose remaining list still
contains the empty separator. -/
theorem scanSeps_spec (text last : Str) :
    ∀ seps : List Str, [] ∈ seps →
    ((scanSeps text last seps).1 = [] ∧ (scanSeps text last seps).2 = []) ∨
    [] ∈ (scanSeps text last seps).2 := by
  intro seps
  induction seps with
  | nil => intro h; simp at h
  | cons s rest ih =>
    intro hmem
    rw [scanSeps]
    by_cases hse : s.isEmpty = true
    · rw [if_pos hse]
      exact Or.inl ⟨rfl, rfl⟩
    · have hsne : s ≠ [] := fun h => hse (by simp [h])
      have hrest : [] ∈ rest := by
        rcases List.mem_cons.mp hmem with h | h
        · exact absurd h.symm hsne
        · exact h
      rw [if_neg hse]
      by_cases hcs : containsSub s text = true
      · rw [if_pos hcs]
        exact Or.inr hrest
      · rw [if_neg hcs]
        exact ih hrest

/-- The same fact for chooseSep. -/
theorem chooseSep_spec (seps : List Str) (text : Str) (h : [] ∈ seps) :
    ((chooseSep seps text).1 = [] ∧ (chooseSep seps text).2 = []) ∨
    [] ∈ (chooseSep seps text).2 := by
  rw [chooseSep]
  exact scanSeps_spec text _ seps h

/-- Splitting on the empty separator turns the text into single
characters. -/
theorem splitTextWithSep_nil_sep (text : Str) :
    ∀ s ∈ splitTextWithSep [] text, s.length = 1 := by
  intro s hs
  rw [splitTextWithSep] at hs
  simp only [List.isEmpty_nil, if_pos] at hs
  rcases List.mem_filter.mp hs with ⟨hmem, _⟩
  rcases List.mem_map.mp hmem with ⟨c, _, hc⟩
  simp [← hc]

/-- Every chunk the split-processing loop assembles is at most
chunk_size long, provided the collected splits are shorter than
chunk_size and every recursion result already satisfies the bound. -/
theorem assembleChunks_bound (cs co : Nat) :
    ∀ (tagged : List (Str ⊕ List Str)) (good : List Str),
    (∀ x ∈ tagged, (∀ s, x = .inl s → s.length < cs) ∧
      (∀ l, x = .inr l → ∀ c ∈ l, c.length ≤ cs)) →
    (∀ g ∈ good, g.length < cs) →
    ∀ c ∈ assembleChunks cs co tagged good, c.length ≤ cs := by
  intro tagged
  induction tagged with
  | nil =>
    intro good _ hgood c hc
    rw [assembleChunks] at hc
    by_cases hge : good.isEmpty = true
    · rw [if_pos hge] at hc
      simp at hc
    · rw [if_neg hge] at hc
      exact merge_splits_chunk_bound cs co good hgood c hc
  | cons x rest ih =>
    intro good hx hgood c hc
    have hxr : ∀ y ∈ rest, (∀ s, y = .inl s → s.length < cs) ∧
        (∀ l, y = .inr l → ∀ c2 ∈ l, c2.length ≤ cs) :=
      fun y hy => hx y (List.mem_cons_of_mem x hy)
    cases x with
    | inl s =>
      rw [assembleChunks] at hc
      refine ih (good ++ [s]) hxr ?_ c hc
      intro g hg
      rcases List.mem_append.mp hg with hg | hg
      · exact hgood g hg
      · rw [List.mem_singleton.mp hg]
        exact (hx (.inl s) (List.mem_cons_self _ _)).1 s rfl
    | inr l =>
      rw [assembleChunks] at hc
      rcases List.mem_append.mp hc with h12 | h3
      · rcases List.mem_append.mp h12 with h1 | h2
        · by_cases hge : good.isEmpty = true
          · rw [if_pos hge] at h1
            simp at h1
          · rw [if_neg hge] at h1
            exact merge_splits_chunk_bound cs co good hgood c h1
        · exact (hx (.inr l) (List.mem_cons_self _ _)).2 l rfl c h2
      · exact ih [] hxr (by simp) c h3

/-- Every chunk of the recursive splitter is at most chunk_size long,
for any fuel, any positive chunk_size, and any separator list holding
the empty separator. -/
theorem splitTextRec_chunk_bound :
    ∀ (fuel cs co : Nat) (seps : List Str) (text : Str),
    1 ≤ cs → [] ∈ seps →
    ∀ c ∈ splitTextRec fuel cs co seps text, c.length ≤ cs := by
  intro fuel
  induction fuel with
  | zero =>
    intro cs co seps text _ _ c hc
    rw [splitTextRec] at hc
    simp at hc
  | succ f ih =>
    intro cs co seps text hcs hsep c hc
    rw [splitTextRec] at hc
    refine assembleChunks_bound cs co _ [] ?_ (by simp) c hc
    intro x hx
    rcases List.mem_map.mp hx with ⟨s, hsmem, hxs⟩
    constructor
    · intro s2 hxeq
      rw [← hxs] at hxeq
      by_cases hlen : s.length < cs
      · rw [if_pos hlen] at hxeq
        injection hxeq with h2
        rw [← h2]
        exact hlen
      · rw [if_neg hlen] at hxeq
        cases hxeq
    · intro l hxeq
      rw [← hxs] at hxeq
      by_cases hlen : s.length < cs
      · rw [if_pos hlen] at hxeq
        cases hxeq
      · rw [if_neg hlen] at hxeq
        injection hxeq with h2
        rw [← h2]
        rcases chooseSep_spec seps text hsep with ⟨hp1, hp2⟩ | hp2
        · rw [hp1] at hsmem
          have hs1 : s.length = 1 := splitTextWithSep_nil_sep text s hsmem
          rw [if_pos (by simp [hp2])]
          intro c2 hc2
          rw [List.mem_singleton.mp hc2, hs1]
          exact hcs
        · have hne : (chooseSep seps text).2.isEmpty = false := by
            have := List.ne_nil_of_mem hp2
            simpa using this
          rw [if_neg (by simp [hne])]
          exact ih cs co (chooseSep seps text).2 s hcs hp2

/-- C1 (amended): for every chunk_size and chunk_overlap configuration
with overlap < size, every chunk chunk_text produces from any text is
at most chunk_size characters long.  The exact-overlap half of the
original claim is refuted by the counterexample below: consecutive
chunks share at most, not exactly, chunk_overlap characters, and the
carried-over context is aligned to separator boundaries. -/
theorem chunk_text_size_bound (cs co : Nat) (text : Str)
    (m : ChunkMetadata) (h : co < cs) :
    ∀ doc ∈ chunk_text cs co text m, doc.page_content.length ≤ cs := by
  intro doc hdoc
  rw [chunk_text] at hdoc
  split at hdoc
  · simp at hdoc
  · rcases List.mem_map.mp hdoc with ⟨c, hcmem, hcd⟩
    rw [← hcd]
    exact splitTextRec_chunk_bound _ cs co default_separators text
      (by omega) (by simp [default_separators]) c hcmem

/-- C1 witness: the counterexample text at chunk_size 10 and overlap 5
satisfies the bound. -/
theorem chunk_text_size_bound_w :
    5 < 10 ∧
    ∀ doc ∈ chunk_text 10 5 cexText cexMeta,
      doc.page_content.length ≤ 10 :=
  ⟨by decide, chunk_text_size_bound 10 5 cexText cexMeta (by decide)⟩

/-- C1 counterexample: with chunk_size 10 and chunk_overlap 5 (overlap
below size), the sample text chunks into four documents, and already
the first two consecutive chunks, neither of which is the final chunk,
do not share exactly 5 characters of trailing and leading context: the
last 5 characters of the first chunk differ from the first 5 characters
of the second. -/
theorem chunk_overlap_not_exact :
    (chunk_text 10 5 cexText cexMeta).map Document.page_content =
      [(r"aaaa bbbb").toList, (r"bbbb cccc").toList,
       (r"cccc dddd").toList, (r"dddd eeee").toList] ∧
    ¬ sharesExactOverlap 5 ((r"aaaa bbbb").toList) ((r"bbbb cccc").toList) := by
  constructor
  · rfl
  · intro hov
    rw [sharesExactOverlap] at hov
    exact absurd hov (by decide)
